import Mathlib

set_option maxHeartbeats 1000000

/-!
Shallow embedding of the skull editor core (src/lib.rs of the `skull`
repository).  Strings are modelled as lists of unicode scalar values
(`List Char`); Rust `usize` arithmetic, which is always in range in the
states the claims quantify over, is modelled by `Nat`.  The display-width
table of the external `unicode_width` crate (the call
`c.width().unwrap_or(1)`) is a parameter `w : Char → Nat` of every
definition that needs it, exactly as the spec prescribes for the external
width capability.  Terminal output (escape sequences, scrolling, printing)
is write-only and does not influence the editor state, so it is dropped;
the state changes performed by `redraw` are kept.
-/

/-- Model of Rust `str::lines` as called in `SkullEditor::new`
(src/lib.rs line 34): the input splits at each line feed, a carriage
return immediately preceding a line feed is consumed with it, and a
trailing terminator does not produce a final empty line. -/
def rustLines : List Char → List (List Char)
  | [] => []
  | '\n' :: rest => [] :: rustLines rest
  | '\r' :: '\n' :: rest => [] :: rustLines rest
  | c :: rest =>
    match rustLines rest with
    | [] => [[c]]
    | l :: ls => (c :: l) :: ls

/-- The line buffer built by `SkullEditor::new` (src/lib.rs lines 33-47):
the input is split into lines and an empty line is pushed when the split
produced none. -/
def SkullEditor.newDoc (input : List Char) : List (List Char) :=
  let lines := rustLines input
  if lines.isEmpty then [[]] else lines

/-- The editor state (src/lib.rs lines 22-29); the `stdout` handle is an
output-only external resource and is not part of the model. -/
structure SkullEditor where
  lines : List (List Char)
  cursor_column : Nat
  cursor_line : Nat
  view_pos : Nat
  current_view_height : Nat

namespace SkullEditor

/-- Rust `SkullEditor::new` (src/lib.rs lines 33-47). -/
def new (input : List Char) : SkullEditor :=
  { lines := newDoc input
    cursor_column := 0
    cursor_line := 0
    view_pos := 0
    current_view_height := 0 }

/-- Rust `get_height` (src/lib.rs lines 50-52). -/
def get_height (st : SkullEditor) : Nat :=
  st.lines.length

/-- The line the cursor is on, `self.lines[self.cursor_line]`; Rust's
indexing panics out of range, the model totalises it with `getD` (all
claims are about states where the index is in range). -/
def curLine (st : SkullEditor) : List Char :=
  st.lines.getD st.cursor_line []

/-- Rust `get_width` (src/lib.rs lines 55-57). -/
def get_width (st : SkullEditor) : Nat :=
  st.curLine.length

/-- Rust `char_width` (src/lib.rs lines 59-65): a tab is four cells wide, any
other character's width comes from the external table `w` (which models
`c.width().unwrap_or(1)`). -/
def char_width (w : Char → Nat) (c : Char) : Nat :=
  if c = '\t' then 4 else w c

/-- Sum of character widths, the accumulation loop of
`get_cursor_offset`. -/
def sumWidths (w : Char → Nat) : List Char → Nat
  | [] => 0
  | c :: rest => char_width w c + sumWidths w rest

/-- Rust `get_cursor_offset` (src/lib.rs lines 67-73): total display width of
the characters strictly before the cursor column on the current line. -/
def get_cursor_offset (w : Char → Nat) (st : SkullEditor) : Nat :=
  sumWidths w (st.curLine.take st.cursor_column)

/-- The scanning loop of `offset_to_cursor` (src/lib.rs lines 75-87),
with the running display column `real` and running character index
`col` made explicit. -/
def offsetToCursorAux (w : Char → Nat) (offset : Nat) :
    List Char → Nat → Nat → Nat
  | [], _, col => col
  | c :: rest, real, col =>
    let real2 := real + char_width w c
    if offset < real2 then col else offsetToCursorAux w offset rest real2 (col + 1)

/-- Rust `offset_to_cursor` (src/lib.rs lines 75-87). -/
def offset_to_cursor (w : Char → Nat) (st : SkullEditor) (offset : Nat) : Nat :=
  offsetToCursorAux w offset st.curLine 0 0

/-- Rust `move_cursor_left` (src/lib.rs lines 90-97). -/
def move_cursor_left (st : SkullEditor) : SkullEditor :=
  if 0 < st.cursor_column then
    { st with cursor_column := st.cursor_column - 1 }
  else if 0 < st.cursor_line then
    let st2 := { st with cursor_line := st.cursor_line - 1 }
    { st2 with cursor_column := st2.get_width }
  else st

/-- Rust `move_cursor_right` (src/lib.rs lines 100-107). -/
def move_cursor_right (st : SkullEditor) : SkullEditor :=
  if st.cursor_column < st.get_width then
    { st with cursor_column := st.cursor_column + 1 }
  else if st.cursor_line + 1 < st.get_height then
    { st with cursor_column := 0, cursor_line := st.cursor_line + 1 }
  else st

/-- Rust `move_cursor_up` (src/lib.rs lines 110-118). -/
def move_cursor_up (w : Char → Nat) (st : SkullEditor) : SkullEditor :=
  if 0 < st.cursor_line then
    let real_offset := st.get_cursor_offset w
    let st2 := { st with cursor_line := st.cursor_line - 1 }
    { st2 with cursor_column := st2.offset_to_cursor w real_offset }
  else
    { st with cursor_column := 0 }

/-- Rust `move_cursor_down` (src/lib.rs lines 121-129). -/
def move_cursor_down (w : Char → Nat) (st : SkullEditor) : SkullEditor :=
  if st.cursor_line + 1 < st.get_height then
    let real_offset := st.get_cursor_offset w
    let st2 := { st with cursor_line := st.cursor_line + 1 }
    { st2 with cursor_column := st2.offset_to_cursor w real_offset }
  else
    { st with cursor_column := st.get_width }

/-- Replace the current line, `self.lines[self.cursor_line] = l`. -/
def setCurLine (st : SkullEditor) (l : List Char) : SkullEditor :=
  { st with lines := st.lines.set st.cursor_line l }

/-- Rust `add_character` (src/lib.rs lines 132-135). -/
def add_character (st : SkullEditor) (c : Char) : SkullEditor :=
  { st.setCurLine (st.curLine.insertIdx st.cursor_column c) with
      cursor_column := st.cursor_column + 1 }

/-- Rust `new_line` (src/lib.rs lines 138-144): `split_off` keeps the first
`cursor_column` characters in place and the remainder becomes a fresh
line inserted right below. -/
def new_line (st : SkullEditor) : SkullEditor :=
  let st2 := st.setCurLine (st.curLine.take st.cursor_column)
  { st2 with
      cursor_line := st.cursor_line + 1
      cursor_column := 0
      lines := st2.lines.insertIdx (st.cursor_line + 1) (st.curLine.drop st.cursor_column) }

/-- Rust `erase_character` (src/lib.rs lines 147-159).  In the join branch the
cursor column is set to the length of the previous line after the removed
line has been appended to it (`current_line.len()` is read after
`extend_from_slice`). -/
def erase_character (st : SkullEditor) : SkullEditor :=
  if 0 < st.cursor_column then
    let col := st.cursor_column - 1
    { st.setCurLine (st.curLine.eraseIdx col) with cursor_column := col }
  else if 0 < st.cursor_line then
    let removed := st.curLine
    let rest := st.lines.eraseIdx st.cursor_line
    let tl := st.cursor_line - 1
    let joined := rest.getD tl [] ++ removed
    { st with
        lines := rest.set tl joined
        cursor_line := tl
        cursor_column := joined.length }
  else st

/-- The view height `(height as usize).min(doc_height).max(1)` of src/lib.rs line 165. -/
def viewHeight (termHeight docHeight : Nat) : Nat :=
  (min termHeight docHeight).max 1

/-- The state changes of `redraw` (src/lib.rs lines 162-234): record the
new view height, the three `view_pos` clamps in source order, and the
final cursor-column clamp.  The terminal queries and drawing commands are
output only. -/
def redraw_state (termHeight : Nat) (st : SkullEditor) : SkullEditor :=
  let doc_height := st.get_height
  let view_height := viewHeight termHeight doc_height
  let st1 := { st with current_view_height := view_height }
  let st2 :=
    if st1.cursor_line < st1.view_pos then
      { st1 with view_pos := st1.view_pos - (st1.view_pos - st1.cursor_line) }
    else st1
  let st3 :=
    if doc_height < st2.view_pos + view_height then
      { st2 with view_pos := st2.view_pos - (st2.view_pos + view_height - doc_height) }
    else st2
  let st4 :=
    if st3.view_pos + view_height - 1 < st3.cursor_line then
      { st3 with view_pos := st3.view_pos + (st3.cursor_line - (st3.view_pos + view_height - 1)) }
    else st3
  { st4 with cursor_column := min st4.cursor_column st4.get_width }

end SkullEditor

/-- Serialization of the line buffer at teardown (src/lib.rs lines
314-321): lines joined by a line feed, no trailing break appended. -/
def serializeLines : List (List Char) → List Char
  | [] => []
  | [l] => l
  | l :: ls => l ++ '\n' :: serializeLines ls

/-- The cursor validity invariant of the spec's data model: the line
index is in range and the column is at most the current line's length. -/
def SkullEditor.Inv (st : SkullEditor) : Prop :=
  st.cursor_line < st.lines.length ∧ st.cursor_column ≤ st.get_width

instance (st : SkullEditor) : Decidable st.Inv := by
  unfold SkullEditor.Inv
  infer_instance

/-- Whether the input contains a carriage return immediately followed by
a line feed. -/
def hasCRLF : List Char → Bool
  | [] => false
  | c :: rest => (decide (c = '\r') && decide (rest.head? = some '\n')) || hasCRLF rest

/-- Whether every carriage return of the input is immediately followed by
a line feed. -/
def crOk : List Char → Bool
  | [] => true
  | c :: rest => decide (c = '\r' → rest.head? = some '\n') && crOk rest

/-- Normalization of trailing line breaks: drop every trailing line
feed. -/
def stripTrailingLF (s : List Char) : List Char :=
  (s.reverse.dropWhile (fun c => c = '\n')).reverse

/-- The trailing line terminator that `rustLines` forgets: a single final
line feed. -/
def lfSuffix (s : List Char) : List Char :=
  if s.getLast? = some '\n' then ['\n'] else []

/-- The key codes the event loop of `run` distinguishes (src/lib.rs lines
249-271); `otherKey` stands for every other `crossterm` key code. -/
inductive KeyCode where
  | backspace
  | enter
  | left
  | right
  | up
  | down
  | char (c : Char)
  | tab
  | esc
  | otherKey
deriving DecidableEq

/-- The events the loop of `run` distinguishes: a key event with its
code and whether the modifier set is exactly CONTROL, a resize
notification, or any other event kind. -/
inductive Event where
  | key (code : KeyCode) (ctrl : Bool)
  | resize
  | otherEvent
deriving DecidableEq

/-- How the editing loop exited: Ctrl+S (force save) or Escape. -/
inductive ExitKind where
  | ctrlS
  | esc
deriving DecidableEq

/-- What a key event does in the editing phase: either an exit, or a
state transformation (the identity for the ignored `_` arm). -/
inductive KeyAction where
  | exit (k : ExitKind)
  | apply (f : (Char → Nat) → SkullEditor → SkullEditor)

/-- The key dispatch `match key_event.code` of the editing loop (src/lib.rs
lines 249-271), in source order: Ctrl+H is an alias for backspace and
Ctrl+S forces a save; any other character key (including with the
control modifier) inserts the character. -/
def keyAction (code : KeyCode) (ctrl : Bool) : KeyAction :=
  match code with
  | KeyCode.backspace => KeyAction.apply fun _ st => st.erase_character
  | KeyCode.enter => KeyAction.apply fun _ st => st.new_line
  | KeyCode.left => KeyAction.apply fun _ st => st.move_cursor_left
  | KeyCode.right => KeyAction.apply fun _ st => st.move_cursor_right
  | KeyCode.up => KeyAction.apply fun w st => st.move_cursor_up w
  | KeyCode.down => KeyAction.apply fun w st => st.move_cursor_down w
  | KeyCode.char c =>
    if c = 'h' ∧ ctrl then KeyAction.apply fun _ st => st.erase_character
    else if c = 's' ∧ ctrl then KeyAction.exit ExitKind.ctrlS
    else KeyAction.apply fun _ st => st.add_character c
  | KeyCode.tab => KeyAction.apply fun _ st => st.add_character '\t'
  | KeyCode.esc => KeyAction.exit ExitKind.esc
  | KeyCode.otherKey => KeyAction.apply fun _ _st => _st

/-- The editing phase of `run` (src/lib.rs lines 245-277) over an
explicit event stream: each key event is dispatched and, unless the loop
broke, key and resize events are followed by a redraw; `none` means the
stream ended with the loop still blocked on `read`.  Returns the final
state, how the loop exited, and the unconsumed events. -/
def editLoop (w : Char → Nat) (th : Nat) :
    SkullEditor → List Event → Option (SkullEditor × ExitKind × List Event)
  | _, [] => none
  | st, Event.key code ctrl :: rest =>
    match keyAction code ctrl with
    | KeyAction.exit k => some (st, k, rest)
    | KeyAction.apply f => editLoop w th (SkullEditor.redraw_state th (f w st)) rest
  | st, Event.resize :: rest => editLoop w th (SkullEditor.redraw_state th st) rest
  | st, Event.otherEvent :: rest => editLoop w th st rest

/-- The exit-confirmation loop of `run` (src/lib.rs lines 289-304): only
a `y` or `n` character key ends the wait, every other event is ignored;
`none` means the stream ended with the loop still waiting. -/
def confirmLoop : List Event → Option Bool
  | [] => none
  | Event.key (KeyCode.char 'y') _ :: _ => some true
  | Event.key (KeyCode.char 'n') _ :: _ => some false
  | _ :: rest => confirmLoop rest

/-- Whether an event is an answer the exit-confirmation loop accepts. -/
def isYesNo : Event → Bool
  | Event.key (KeyCode.char 'y') _ => true
  | Event.key (KeyCode.char 'n') _ => true
  | _ => false

/-- The outcome of `run` (src/lib.rs lines 237-323): the save decision,
the serialized content of `EditorResult`, and whether the
exit-confirmation phase was entered. -/
structure RunResult where
  save : Bool
  content : List Char
  confirmEntered : Bool
deriving DecidableEq

/-- Rust `run` (src/lib.rs lines 237-323) over an explicit event stream: an
initial redraw, the editing loop, then — only when the loop exited via
Escape — the exit-confirmation prompt; Ctrl+S skips the prompt with
`save = true`. -/
def runModel (w : Char → Nat) (th : Nat) (st : SkullEditor) (events : List Event) :
    Option RunResult :=
  match editLoop w th (SkullEditor.redraw_state th st) events with
  | none => none
  | some (st2, ExitKind.ctrlS, _) =>
    some { save := true, content := serializeLines st2.lines, confirmEntered := false }
  | some (st2, ExitKind.esc, rest) =>
    match confirmLoop rest with
    | none => none
    | some b =>
      some { save := b, content := serializeLines st2.lines, confirmEntered := true }

/-- A result of the blocking `read()` call: an event, or an I/O error
(which `?` propagates out of `run`). -/
inductive InEvent where
  | ok (e : Event)
  | err
deriving DecidableEq

/-- The editing phase with fallible reads: an erroring read makes the
loop return with no exit kind (the `?` on `read()` at src/lib.rs line
246 propagates the error). -/
def editLoopE (w : Char → Nat) (th : Nat) :
    SkullEditor → List InEvent → Option (SkullEditor × Option ExitKind × List InEvent)
  | _, [] => none
  | st, InEvent.err :: rest => some (st, none, rest)
  | st, InEvent.ok (Event.key code ctrl) :: rest =>
    match keyAction code ctrl with
    | KeyAction.exit k => some (st, some k, rest)
    | KeyAction.apply f => editLoopE w th (SkullEditor.redraw_state th (f w st)) rest
  | st, InEvent.ok Event.resize :: rest => editLoopE w th (SkullEditor.redraw_state th st) rest
  | st, InEvent.ok Event.otherEvent :: rest => editLoopE w th st rest

/-- The exit-confirmation loop with fallible reads; `some none` is an
erroring read (the `?` at src/lib.rs line 290 propagates it). -/
def confirmLoopE : List InEvent → Option (Option Bool)
  | [] => none
  | InEvent.err :: _ => some none
  | InEvent.ok (Event.key (KeyCode.char 'y') _) :: _ => some (some true)
  | InEvent.ok (Event.key (KeyCode.char 'n') _) :: _ => some (some false)
  | _ :: rest => confirmLoopE rest

/-- What a terminated `run` left behind: whether it returned Ok, and
whether raw input mode is still enabled on the terminal when it
returns. -/
structure RawResult where
  ok : Bool
  rawMode : Bool
deriving DecidableEq

/-- The raw-mode lifecycle of `run` (src/lib.rs lines 237-323):
`enable_raw_mode` runs first; `disable_raw_mode` (line 312) runs only on
the success path after both loops, so an erroring `read()` returns the
error with raw mode still enabled — there is no scoped guard in the
source. -/
def runRaw (w : Char → Nat) (th : Nat) (st : SkullEditor) (ins : List InEvent) :
    Option RawResult :=
  match editLoopE w th (SkullEditor.redraw_state th st) ins with
  | none => none
  | some (_, none, _) => some { ok := false, rawMode := true }
  | some (_, some ExitKind.ctrlS, _) => some { ok := true, rawMode := false }
  | some (_, some ExitKind.esc, rest) =>
    match confirmLoopE rest with
    | none => none
    | some none => some { ok := false, rawMode := true }
    | some (some _) => some { ok := true, rawMode := false }

/-- The all-ones width table: the correct widths of the plain ASCII
characters used in the concrete scenarios below. -/
def asciiWidth : Char → Nat := fun _ => 1

/-- The single line `abc` with the cursor at line 0, column 1 (the
Enter/Backspace scenario of the spec). -/
def c6_state : SkullEditor :=
  { lines := [['a', 'b', 'c']]
    cursor_column := 1
    cursor_line := 0
    view_pos := 0
    current_view_height := 0 }

theorem getD_set_self {α : Type} (l : List α) (i : Nat) (a d : α) (h : i < l.length) :
    (l.set i a).getD i d = a := by
  rw [List.getD_eq_getElem (l.set i a) d (by simpa using h)]
  exact List.getElem_set_self (by simpa using h)

theorem offsetToCursorAux_le (w : Char → Nat) (offset : Nat) (l : List Char) :
    ∀ real col, SkullEditor.offsetToCursorAux w offset l real col ≤ col + l.length := by
  induction l with
  | nil => intro real col; simp [SkullEditor.offsetToCursorAux]
  | cons c rest ih =>
    intro real col
    simp only [SkullEditor.offsetToCursorAux]
    split
    · simp
    · have := ih (real + SkullEditor.char_width w c) (col + 1)
      simp only [List.length_cons]
      omega

theorem offset_to_cursor_le (w : Char → Nat) (st : SkullEditor) (offset : Nat) :
    st.offset_to_cursor w offset ≤ st.get_width := by
  simpa [SkullEditor.offset_to_cursor, SkullEditor.get_width] using
    offsetToCursorAux_le w offset st.curLine 0 0

theorem newDoc_eq_ite (input : List Char) :
    SkullEditor.newDoc input =
      if (rustLines input).isEmpty then [[]] else rustLines input := rfl

theorem newDoc_length_pos (input : List Char) : 0 < (SkullEditor.newDoc input).length := by
  rw [newDoc_eq_ite]
  split
  · simp
  · rename_i h
    simp only [List.isEmpty_iff] at h
    exact List.length_pos.mpr h

theorem new_Inv (input : List Char) : (SkullEditor.new input).Inv := by
  refine ⟨?_, by simp [SkullEditor.new, SkullEditor.get_width]⟩
  simpa [SkullEditor.new] using newDoc_length_pos input

theorem add_character_Inv (st : SkullEditor) (c : Char) (h : st.Inv) :
    (st.add_character c).Inv := by
  obtain ⟨h1, h2⟩ := h
  refine ⟨by simpa [SkullEditor.add_character, SkullEditor.setCurLine] using h1, ?_⟩
  show st.cursor_column + 1 ≤ (st.add_character c).get_width
  have hw : (st.add_character c).get_width = st.get_width + 1 := by
    simp only [SkullEditor.add_character, SkullEditor.setCurLine, SkullEditor.get_width,
      SkullEditor.curLine]
    rw [getD_set_self _ _ _ _ h1]
    exact List.length_insertIdx _ _ h2
  omega

theorem new_line_Inv (st : SkullEditor) (h : st.Inv) : st.new_line.Inv := by
  obtain ⟨h1, h2⟩ := h
  refine ⟨?_, Nat.zero_le _⟩
  show st.cursor_line + 1 < st.new_line.lines.length
  have hl : st.new_line.lines.length = st.lines.length + 1 := by
    simp only [SkullEditor.new_line, SkullEditor.setCurLine]
    rw [List.length_insertIdx _ _ (by simpa using h1)]
    simp
  omega

theorem erase_character_Inv (st : SkullEditor) (h : st.Inv) : st.erase_character.Inv := by
  obtain ⟨h1, h2⟩ := h
  unfold SkullEditor.erase_character
  split
  · rename_i hc
    refine ⟨by simpa [SkullEditor.setCurLine] using h1, ?_⟩
    simp only [SkullEditor.setCurLine, SkullEditor.get_width, SkullEditor.curLine,
      List.length_set]
    rw [getD_set_self _ _ _ _ h1]
    rw [List.length_eraseIdx]
    simp only [SkullEditor.get_width, SkullEditor.curLine] at h2
    split <;> omega
  · split
    · rename_i hc hl
      have hrl : (st.lines.eraseIdx st.cursor_line).length = st.lines.length - 1 := by
        rw [List.length_eraseIdx]
        simp [h1]
      refine ⟨?_, ?_⟩
      · simpa [List.length_set, hrl] using by omega
      · show _ ≤ SkullEditor.get_width _
        simp only [SkullEditor.get_width, SkullEditor.curLine]
        rw [getD_set_self _ _ _ _ (by simp [hrl]; omega)]
    · exact ⟨h1, h2⟩

theorem move_cursor_left_Inv (st : SkullEditor) (h : st.Inv) : st.move_cursor_left.Inv := by
  obtain ⟨h1, h2⟩ := h
  unfold SkullEditor.move_cursor_left
  split
  · refine ⟨h1, ?_⟩
    simp only [SkullEditor.get_width, SkullEditor.curLine] at h2 ⊢
    omega
  · split
    · exact ⟨by simp only []; omega, le_refl _⟩
    · exact ⟨h1, h2⟩

theorem move_cursor_right_Inv (st : SkullEditor) (h : st.Inv) : st.move_cursor_right.Inv := by
  obtain ⟨h1, h2⟩ := h
  unfold SkullEditor.move_cursor_right
  split
  · rename_i hc
    refine ⟨h1, ?_⟩
    simp only [SkullEditor.get_width, SkullEditor.curLine] at hc ⊢
    omega
  · split
    · rename_i hc hl
      exact ⟨by simpa [SkullEditor.get_height] using hl, Nat.zero_le _⟩
    · exact ⟨h1, h2⟩

theorem move_cursor_up_Inv (w : Char → Nat) (st : SkullEditor) (h : st.Inv) :
    (st.move_cursor_up w).Inv := by
  obtain ⟨h1, h2⟩ := h
  unfold SkullEditor.move_cursor_up
  split
  · exact ⟨by simp only []; omega, offset_to_cursor_le w _ _⟩
  · exact ⟨h1, Nat.zero_le _⟩

theorem move_cursor_down_Inv (w : Char → Nat) (st : SkullEditor) (h : st.Inv) :
    (st.move_cursor_down w).Inv := by
  obtain ⟨h1, h2⟩ := h
  unfold SkullEditor.move_cursor_down
  split
  · rename_i hl
    exact ⟨by simpa [SkullEditor.get_height] using hl, offset_to_cursor_le w _ _⟩
  · exact ⟨h1, le_refl _⟩

/-- C1: the document always holds at least one line.  `SkullEditor::new`
yields a nonempty line buffer for every input (the empty string gives
exactly one empty line), and every editing and navigation operation
preserves nonemptiness on every state satisfying the cursor
invariant. -/
theorem claim_C1 :
    (∀ input, 1 ≤ (SkullEditor.new input).lines.length) ∧
    (SkullEditor.new []).lines = [[]] ∧
    (∀ (st : SkullEditor) c, st.Inv → 1 ≤ (st.add_character c).lines.length) ∧
    (∀ (st : SkullEditor), st.Inv → 1 ≤ st.new_line.lines.length) ∧
    (∀ (st : SkullEditor), st.Inv → 1 ≤ st.erase_character.lines.length) ∧
    (∀ (st : SkullEditor), st.Inv → 1 ≤ st.move_cursor_left.lines.length) ∧
    (∀ (st : SkullEditor), st.Inv → 1 ≤ st.move_cursor_right.lines.length) ∧
    (∀ w (st : SkullEditor), st.Inv → 1 ≤ (st.move_cursor_up w).lines.length) ∧
    (∀ w (st : SkullEditor), st.Inv → 1 ≤ (st.move_cursor_down w).lines.length) := by
  refine ⟨fun input => newDoc_length_pos input, by decide,
    fun st c h => ?_, fun st h => ?_, fun st h => ?_, fun st h => ?_, fun st h => ?_,
    fun w st h => ?_, fun w st h => ?_⟩
  · have := (add_character_Inv st c h).1; omega
  · have := (new_line_Inv st h).1; omega
  · have := (erase_character_Inv st h).1; omega
  · have := (move_cursor_left_Inv st h).1; omega
  · have := (move_cursor_right_Inv st h).1; omega
  · have := (move_cursor_up_Inv w st h).1; omega
  · have := (move_cursor_down_Inv w st h).1; omega

/-- Witness for C1 at concrete inputs. -/
theorem claim_C1_witness :
    1 ≤ (SkullEditor.new ['a']).lines.length ∧
    1 ≤ ((SkullEditor.new ['a']).erase_character).lines.length :=
  ⟨claim_C1.1 ['a'], claim_C1.2.2.2.2.1 (SkullEditor.new ['a']) (by decide)⟩

/-- C3: the cursor invariant — line index in range, column at most the
current line's length — holds for a fresh editor and is preserved by
every editing and navigation operation; `offset_to_cursor` never exceeds
the current line's length. -/
theorem claim_C3 :
    (∀ input, (SkullEditor.new input).Inv) ∧
    (∀ (st : SkullEditor) c, st.Inv → (st.add_character c).Inv) ∧
    (∀ (st : SkullEditor), st.Inv → st.new_line.Inv) ∧
    (∀ (st : SkullEditor), st.Inv → st.erase_character.Inv) ∧
    (∀ (st : SkullEditor), st.Inv → st.move_cursor_left.Inv) ∧
    (∀ (st : SkullEditor), st.Inv → st.move_cursor_right.Inv) ∧
    (∀ w (st : SkullEditor), st.Inv → (st.move_cursor_up w).Inv) ∧
    (∀ w (st : SkullEditor), st.Inv → (st.move_cursor_down w).Inv) ∧
    (∀ w (st : SkullEditor) offset, st.offset_to_cursor w offset ≤ st.get_width) :=
  ⟨new_Inv, add_character_Inv, new_line_Inv, erase_character_Inv, move_cursor_left_Inv,
    move_cursor_right_Inv, move_cursor_up_Inv, move_cursor_down_Inv,
    fun w st offset => offset_to_cursor_le w st offset⟩

/-- Witness for C3 at concrete inputs. -/
theorem claim_C3_witness :
    ((SkullEditor.new ['a', 'b']).add_character 'c').Inv ∧
    ((SkullEditor.new ['a', 'b']).move_cursor_down asciiWidth).Inv :=
  ⟨claim_C3.2.1 (SkullEditor.new ['a', 'b']) 'c' (by decide),
    claim_C3.2.2.2.2.2.2.2.1 asciiWidth (SkullEditor.new ['a', 'b']) (by decide)⟩

/-- C4: after the three viewport clamps of `redraw`, the cursor line is
inside the viewport: `view_pos ≤ cursor_line ≤ view_pos + view_height - 1`
with `view_height = clamp(terminal_height, 1, document_height)`, in any
state satisfying the cursor invariant. -/
theorem claim_C4 (th : Nat) (st : SkullEditor) (h : st.Inv) :
    (SkullEditor.redraw_state th st).view_pos ≤ (SkullEditor.redraw_state th st).cursor_line ∧
    (SkullEditor.redraw_state th st).cursor_line ≤
      (SkullEditor.redraw_state th st).view_pos +
        SkullEditor.viewHeight th st.lines.length - 1 := by
  have h1 := h.1
  have hvh1 : 1 ≤ SkullEditor.viewHeight th st.lines.length :=
    le_max_right _ 1
  have hvh2 : SkullEditor.viewHeight th st.lines.length ≤ st.lines.length :=
    max_le (min_le_right _ _) (by omega)
  unfold SkullEditor.redraw_state
  simp only [SkullEditor.get_height]
  split_ifs <;> simp_all <;> omega

/-- Witness for C4 at a concrete state. -/
theorem claim_C4_witness :
    (SkullEditor.redraw_state 5 (SkullEditor.new ['a'])).view_pos ≤
      (SkullEditor.redraw_state 5 (SkullEditor.new ['a'])).cursor_line ∧
    (SkullEditor.redraw_state 5 (SkullEditor.new ['a'])).cursor_line ≤
      (SkullEditor.redraw_state 5 (SkullEditor.new ['a'])).view_pos +
        SkullEditor.viewHeight 5 (SkullEditor.new ['a']).lines.length - 1 :=
  claim_C4 5 (SkullEditor.new ['a']) (by decide)

/-- C7: the three boundary no-ops — left at document start, right at
document end, backspace at document start — leave the whole editor state
unchanged. -/
theorem claim_C7 (st : SkullEditor) :
    (st.cursor_column = 0 → st.cursor_line = 0 →
      st.move_cursor_left = st ∧ st.erase_character = st) ∧
    (st.cursor_column = st.get_width → st.cursor_line + 1 = st.lines.length →
      st.move_cursor_right = st) := by
  constructor
  · intro h1 h2
    constructor
    · unfold SkullEditor.move_cursor_left
      rw [h1, h2]
      simp
    · unfold SkullEditor.erase_character
      rw [h1, h2]
      simp
  · intro h1 h2
    unfold SkullEditor.move_cursor_right SkullEditor.get_height
    rw [h1]
    simp [← h2]

/-- Witness for C7 at a concrete state. -/
theorem claim_C7_witness :
    (SkullEditor.new ['a']).move_cursor_left = SkullEditor.new ['a'] ∧
    (SkullEditor.new ['a']).erase_character = SkullEditor.new ['a'] :=
  (claim_C7 (SkullEditor.new ['a'])).1 rfl rfl

/-- C6 counterexample: in the Enter-then-Backspace scenario on `abc`
with the cursor at column 1, the code puts the cursor after the
backspace join at column 3 (the length of the joined line), not at
column 1 as the claim states. -/
theorem claim_C6_counterexample :
    c6_state.new_line.erase_character.cursor_column ≠ 1 := by decide

/-- C6 amended: Enter at column 1 of the single line `abc` yields lines
`a` and `bc` with the cursor at line 1 column 0; Backspace then
reconstructs the single line `abc` with the cursor at column 3 — the
cursor column after a join is the length of the whole joined line, not
the length of the pre-join first line. -/
theorem claim_C6_amended :
    c6_state.new_line.lines = [['a'], ['b', 'c']] ∧
    c6_state.new_line.cursor_line = 1 ∧
    c6_state.new_line.cursor_column = 0 ∧
    c6_state.new_line.erase_character.lines = [['a', 'b', 'c']] ∧
    c6_state.new_line.erase_character.cursor_line = 0 ∧
    c6_state.new_line.erase_character.cursor_column = 3 := by decide

theorem hasCRLF_cons_false (c : Char) (rest : List Char)
    (h : hasCRLF (c :: rest) = false) : hasCRLF rest = false := by
  rw [show hasCRLF (c :: rest) =
        ((decide (c = '\r') && decide (rest.head? = some '\n')) || hasCRLF rest) from rfl] at h
  exact (Bool.or_eq_false_iff.mp h).2

theorem rustLines_cons_other (c : Char) (rest : List Char) (h1 : ¬ c = '\n')
    (h2 : ∀ r, c = '\r' → rest = '\n' :: r → False) :
    rustLines (c :: rest) =
      match rustLines rest with
      | [] => [[c]]
      | l :: ls => (c :: l) :: ls := by
  rw [rustLines.eq_def]
  split
  · rename_i heq; exact absurd heq (by simp)
  · rename_i r heq
    injection heq with hc hr
    exact absurd hc h1
  · rename_i r heq
    injection heq with hc hr
    exact (h2 r hc hr).elim
  · rename_i c2 r hn hcr heq
    injection heq with hc hr
    subst hc; subst hr; rfl

theorem rustLines_ne_nil (s : List Char) (h : s ≠ []) : rustLines s ≠ [] := by
  induction s using rustLines.induct with
  | case1 => simp at h
  | case2 rest ih => simp [rustLines]
  | case3 rest ih => simp [rustLines]
  | case4 c rest h1 h2 hr ih =>
    rw [rustLines_cons_other c rest h1 h2, hr]; simp
  | case5 c rest h1 h2 l ls hr ih =>
    rw [rustLines_cons_other c rest h1 h2, hr]; simp

theorem serializeLines_cons_cons (c : Char) (l : List Char) (ls : List (List Char)) :
    serializeLines ((c :: l) :: ls) = c :: serializeLines (l :: ls) := by
  cases ls with
  | nil => rfl
  | cons l2 ls2 => rfl

/-- Any input is its parsed lines joined with line feeds, plus its final
line terminator, provided no carriage-return--line-feed pair occurs. -/
theorem serializeLines_rustLines (s : List Char) (h : hasCRLF s = false) :
    serializeLines (rustLines s) ++ lfSuffix s = s := by
  induction s using rustLines.induct with
  | case1 => simp [rustLines, serializeLines, lfSuffix]
  | case2 rest ih =>
    cases rest with
    | nil => simp [rustLines, serializeLines, lfSuffix]
    | cons d r =>
      have hne : rustLines (d :: r) ≠ [] := rustLines_ne_nil _ (by simp)
      have h' : hasCRLF (d :: r) = false := hasCRLF_cons_false _ _ h
      rcases hL : rustLines (d :: r) with _ | ⟨l, ls⟩
      · exact absurd hL hne
      · rw [rustLines.eq_def]
        simp only []
        rw [hL]
        have := ih h'
        rw [hL] at this
        simp only [serializeLines, lfSuffix, List.getLast?_cons_cons] at this ⊢
        simpa using this
  | case3 rest ih =>
    exfalso
    simp [hasCRLF] at h
  | case4 c rest h1 h2 hr ih =>
    have hrest : rest = [] := by
      by_contra hne
      exact rustLines_ne_nil rest hne hr
    subst hrest
    rw [rustLines_cons_other c [] h1 h2]
    simp only [rustLines]
    simp [serializeLines, lfSuffix, h1]
    exact h1
  | case5 c rest h1 h2 l ls hr ih =>
    have hrestne : rest ≠ [] := by
      intro hh; subst hh; simp [rustLines] at hr
    have h' : hasCRLF rest = false := hasCRLF_cons_false _ _ h
    rw [rustLines_cons_other c rest h1 h2, hr, serializeLines_cons_cons]
    have := ih h'
    rw [hr] at this
    have hsuf : lfSuffix (c :: rest) = lfSuffix rest := by
      rcases rest with _ | ⟨d, r⟩
      · exact absurd rfl hrestne
      · simp [lfSuffix, List.getLast?_cons_cons]
    rw [hsuf]
    simpa using this

theorem serializeLines_newDoc (s : List Char) :
    serializeLines (SkullEditor.newDoc s) = serializeLines (rustLines s) := by
  rw [newDoc_eq_ite]
  split
  · rename_i h
    rw [List.isEmpty_iff.mp h]
    rfl
  · rfl

theorem stripTrailingLF_append_lf (x : List Char) :
    stripTrailingLF (x ++ ['\n']) = stripTrailingLF x := by
  unfold stripTrailingLF
  rw [List.reverse_append]
  simp [List.dropWhile_cons]

/-- C2 counterexample: for the input `a\r\nb` the round trip through
`SkullEditor::new` and serialization yields `a\nb`, which differs from
the input even after normalizing trailing newlines — the CRLF break
inside the string is rewritten to a bare LF. -/
theorem claim_C2_counterexample :
    stripTrailingLF (serializeLines (SkullEditor.newDoc ['a', '\r', '\n', 'b'])) ≠
      stripTrailingLF ['a', '\r', '\n', 'b'] := by decide

/-- C2 amended: for every input string with no carriage-return--line-feed
pair, constructing the document and serializing it yields the input back
up to trailing-newline normalization. -/
theorem claim_C2_amended (s : List Char) (h : hasCRLF s = false) :
    stripTrailingLF (serializeLines (SkullEditor.newDoc s)) = stripTrailingLF s := by
  rw [serializeLines_newDoc]
  conv_rhs => rw [← serializeLines_rustLines s h]
  unfold lfSuffix
  split
  · exact (stripTrailingLF_append_lf _).symm
  · simp

/-- Witness for C2 (amended) at a concrete input with a trailing
newline. -/
theorem claim_C2_amended_witness :
    hasCRLF ['a', '\n'] = false ∧
    stripTrailingLF (serializeLines (SkullEditor.newDoc ['a', '\n'])) =
      stripTrailingLF ['a', '\n'] :=
  ⟨by decide, claim_C2_amended ['a', '\n'] (by decide)⟩

theorem crOk_cons (c : Char) (rest : List Char) (h : crOk (c :: rest) = true) :
    (c = '\r' → rest.head? = some '\n') ∧ crOk rest = true := by
  rw [show crOk (c :: rest) =
        (decide (c = '\r' → rest.head? = some '\n') && crOk rest) from rfl] at h
  have := Bool.and_eq_true_iff.mp h
  exact ⟨of_decide_eq_true this.1, this.2⟩

theorem rustLines_append_lf (s : List Char) (hne : s ≠ [])
    (hlast : ∀ c, s.getLast? = some c → c ≠ '\n' ∧ c ≠ '\r') :
    rustLines (s ++ ['\n']) = rustLines s := by
  induction s using rustLines.induct with
  | case1 => exact absurd rfl hne
  | case2 rest ih =>
    rcases rest with _ | ⟨d, r⟩
    · exact absurd rfl (hlast '\n' rfl).1
    · show rustLines ('\n' :: ((d :: r) ++ ['\n'])) = rustLines ('\n' :: (d :: r))
      have : ∀ x : List Char, rustLines ('\n' :: x) = [] :: rustLines x := fun x => rfl
      rw [this, this, ih (by simp) (fun c hc => hlast c (by simpa [List.getLast?_cons_cons] using hc))]
  | case3 rest ih =>
    rcases rest with _ | ⟨d, r⟩
    · exact absurd rfl (hlast '\n' rfl).1
    · show rustLines ('\r' :: '\n' :: ((d :: r) ++ ['\n'])) = rustLines ('\r' :: '\n' :: (d :: r))
      have : ∀ x : List Char, rustLines ('\r' :: '\n' :: x) = [] :: rustLines x := fun x => rfl
      rw [this, this, ih (by simp) (fun c hc => hlast c (by simpa [List.getLast?_cons_cons] using hc))]
  | case4 c rest h1 h2 hr ih =>
    have hrest : rest = [] := by
      by_contra hne2
      exact rustLines_ne_nil rest hne2 hr
    subst hrest
    have hcr : c ≠ '\r' := (hlast c rfl).2
    show rustLines (c :: ['\n']) = rustLines [c]
    rw [rustLines_cons_other c ['\n'] h1 (fun r hc _ => absurd hc hcr)]
    rw [rustLines_cons_other c [] h1 (fun r hc hh => by simp at hh)]
    rfl
  | case5 c rest h1 h2 l ls hr ih =>
    have hrestne : rest ≠ [] := by
      intro hh; subst hh; simp [rustLines] at hr
    have hlast' : ∀ d, rest.getLast? = some d → d ≠ '\n' ∧ d ≠ '\r' := by
      intro d hd
      rcases rest with _ | ⟨e, r⟩
      · exact absurd rfl hrestne
      · exact hlast d (by simpa [List.getLast?_cons_cons] using hd)
    show rustLines (c :: (rest ++ ['\n'])) = rustLines (c :: rest)
    rw [rustLines_cons_other c (rest ++ ['\n']) h1 ?hno]
    case hno =>
      intro r hc hh
      rcases rest with _ | ⟨e, r2⟩
      · exact absurd rfl hrestne
      · simp only [List.cons_append] at hh
        injection hh with he hr2
        exact h2 r2 hc (by rw [he])
    rw [rustLines_cons_other c rest h1 h2]
    rw [ih hrestne hlast', hr]

theorem rustLines_no_cr (s : List Char) (h : crOk s = true) :
    ∀ l ∈ rustLines s, '\r' ∉ l := by
  induction s using rustLines.induct with
  | case1 => simp [rustLines]
  | case2 rest ih =>
    intro l hl
    have h' := (crOk_cons _ _ h).2
    rcases List.mem_cons.mp (by simpa [rustLines] using hl) with h0 | h0
    · subst h0; simp
    · exact ih h' l h0
  | case3 rest ih =>
    intro l hl
    have hA := crOk_cons _ _ h
    have hB := (crOk_cons _ _ hA.2).2
    rcases List.mem_cons.mp (by simpa [rustLines] using hl) with h0 | h0
    · subst h0; simp
    · exact ih hB l h0
  | case4 c rest h1 h2 hr ih =>
    have hrest : rest = [] := by
      by_contra hne2
      exact rustLines_ne_nil rest hne2 hr
    subst hrest
    have hc : c ≠ '\r' := by
      intro hcc
      have := (crOk_cons _ _ h).1 hcc
      simp at this
    intro l hl
    rw [rustLines_cons_other c [] h1 (fun r hh hg => by simp at hg)] at hl
    simp only [rustLines] at hl
    rcases List.mem_cons.mp hl with h0 | h0
    · subst h0; simpa using fun hh => hc hh.symm
    · simp at h0
  | case5 c rest h1 h2 l ls hr ih =>
    have hA := crOk_cons _ _ h
    have hc : c ≠ '\r' := by
      intro hcc
      have hh := hA.1 hcc
      rcases rest with _ | ⟨e, r2⟩
      · simp at hh
      · simp only [List.head?_cons, Option.some_inj] at hh
        exact h2 r2 hcc (by rw [hh])
    intro l2 hl2
    rw [rustLines_cons_other c rest h1 h2, hr] at hl2
    rcases List.mem_cons.mp hl2 with h0 | h0
    · subst h0
      intro hmem
      rcases List.mem_cons.mp hmem with h3 | h3
      · exact hc h3.symm
      · exact ih hA.2 l (by rw [hr]; exact List.mem_cons_self l ls) h3
    · exact ih hA.2 l2 (by rw [hr]; exact List.mem_cons_of_mem l h0)

theorem serializeLines_no_cr (L : List (List Char)) (h : ∀ l ∈ L, '\r' ∉ l) :
    '\r' ∉ serializeLines L := by
  induction L with
  | nil => simp [serializeLines]
  | cons l ls ih =>
    cases ls with
    | nil => simpa [serializeLines] using h l (by simp)
    | cons l2 ls2 =>
      show '\r' ∉ l ++ '\n' :: serializeLines (l2 :: ls2)
      intro hmem
      rcases List.mem_append.mp hmem with h0 | h0
      · exact h l (by simp) h0
      · rcases List.mem_cons.mp h0 with h3 | h3
        · simp at h3
        · exact ih (fun x hx => h x (List.mem_cons_of_mem l hx)) h3

theorem newDoc_no_cr (s : List Char) (h : crOk s = true) :
    ∀ l ∈ SkullEditor.newDoc s, '\r' ∉ l := by
  intro l hl
  rw [newDoc_eq_ite] at hl
  split at hl
  · simp at hl
    subst hl
    simp
  · exact rustLines_no_cr s h l hl

/-- C10 counterexample: appending a line feed to the input `\n` changes
the constructed line sequence (one empty line versus two), and the input
`a\r` stores a carriage return in the document — a CR not followed by LF
is kept. -/
theorem claim_C10_counterexample :
    SkullEditor.newDoc ['\n'] ≠ SkullEditor.newDoc (['\n'] ++ ['\n']) ∧
    '\r' ∈ (SkullEditor.newDoc ['a', '\r']).getD 0 [] := by decide

/-- C10 amended: `SkullEditor::new` treats both LF and CRLF as line
breaks and a carriage return is stored only when not followed by a line
feed.  For every input not ending in a line break, appending a final
newline does not change the constructed line sequence; and for every
input whose carriage returns all sit in CRLF pairs, no line of the
document contains a CR and the serialized content has LF breaks only. -/
theorem claim_C10_amended :
    (∀ s : List Char, (∀ c, s.getLast? = some c → c ≠ '\n' ∧ c ≠ '\r') →
      SkullEditor.newDoc (s ++ ['\n']) = SkullEditor.newDoc s) ∧
    (∀ s : List Char, crOk s = true →
      (∀ l ∈ SkullEditor.newDoc s, '\r' ∉ l) ∧
        '\r' ∉ serializeLines (SkullEditor.newDoc s)) := by
  constructor
  · intro s hlast
    rcases eq_or_ne s [] with rfl | hne
    · decide
    · rw [newDoc_eq_ite, newDoc_eq_ite, rustLines_append_lf s hne hlast]
  · intro s h
    refine ⟨newDoc_no_cr s h, serializeLines_no_cr _ (newDoc_no_cr s h)⟩

/-- Witness for C10 (amended) at concrete inputs. -/
theorem claim_C10_amended_witness :
    SkullEditor.newDoc (['a'] ++ ['\n']) = SkullEditor.newDoc ['a'] ∧
    '\r' ∉ serializeLines (SkullEditor.newDoc ['a', '\r', '\n', 'b']) :=
  ⟨claim_C10_amended.1 ['a'] (by decide),
    (claim_C10_amended.2 ['a', '\r', '\n', 'b'] (by decide)).2⟩

theorem sumWidths_all_one (w : Char → Nat) (l : List Char)
    (h : ∀ c ∈ l, SkullEditor.char_width w c = 1) : SkullEditor.sumWidths w l = l.length := by
  induction l with
  | nil => rfl
  | cons c rest ih =>
    show SkullEditor.char_width w c + SkullEditor.sumWidths w rest = rest.length + 1
    rw [h c (by simp), ih (fun d hd => h d (List.mem_cons_of_mem c hd))]
    omega

theorem offsetToCursorAux_all_one (w : Char → Nat) (offset : Nat) (l : List Char)
    (h : ∀ c ∈ l, SkullEditor.char_width w c = 1) :
    ∀ real col, real ≤ offset →
      SkullEditor.offsetToCursorAux w offset l real col = col + min (offset - real) l.length := by
  induction l with
  | nil => intro real col hr; simp [SkullEditor.offsetToCursorAux]
  | cons c rest ih =>
    intro real col hr
    simp only [SkullEditor.offsetToCursorAux, h c (by simp)]
    split
    · rename_i hlt
      have : offset = real := by omega
      simp [this]
    · rename_i hlt
      rw [ih (fun d hd => h d (List.mem_cons_of_mem c hd)) (real + 1) (col + 1) (by omega)]
      simp only [List.length_cons]
      omega

/-- C5 counterexample: two documents where the line moved onto contains
only single-width characters yet `move_cursor_down` changes the
character-index column — once because the target line is shorter than the
column, once because the current line starts with a tab so the display
offset differs from the character index. -/
theorem claim_C5_counterexample :
    (SkullEditor.move_cursor_down asciiWidth
      { lines := [['a', 'b'], ['c']], cursor_column := 2, cursor_line := 0,
        view_pos := 0, current_view_height := 0 }).cursor_column ≠ 2 ∧
    (SkullEditor.move_cursor_down asciiWidth
      { lines := [['\t'], ['a', 'b', 'c', 'd', 'e']], cursor_column := 1, cursor_line := 0,
        view_pos := 0, current_view_height := 0 }).cursor_column ≠ 1 := by decide

/-- C5 amended: vertical cursor motion preserves the character-index
column exactly when the characters before the cursor on the current line
and the whole target line are single width and the column does not
exceed the target line's length (otherwise the code clamps or re-targets
by display offset). -/
theorem claim_C5_amended (w : Char → Nat) (st : SkullEditor) (hInv : st.Inv) :
    (0 < st.cursor_line →
      (∀ c ∈ st.curLine.take st.cursor_column, SkullEditor.char_width w c = 1) →
      (∀ c ∈ st.lines.getD (st.cursor_line - 1) [], SkullEditor.char_width w c = 1) →
      st.cursor_column ≤ (st.lines.getD (st.cursor_line - 1) []).length →
      (st.move_cursor_up w).cursor_column = st.cursor_column) ∧
    (st.cursor_line + 1 < st.lines.length →
      (∀ c ∈ st.curLine.take st.cursor_column, SkullEditor.char_width w c = 1) →
      (∀ c ∈ st.lines.getD (st.cursor_line + 1) [], SkullEditor.char_width w c = 1) →
      st.cursor_column ≤ (st.lines.getD (st.cursor_line + 1) []).length →
      (st.move_cursor_down w).cursor_column = st.cursor_column) := by
  obtain ⟨h1, h2⟩ := hInv
  have hoff : ∀ hpre : ∀ c ∈ st.curLine.take st.cursor_column, SkullEditor.char_width w c = 1,
      st.get_cursor_offset w = st.cursor_column := by
    intro hpre
    unfold SkullEditor.get_cursor_offset
    rw [sumWidths_all_one w _ hpre, List.length_take]
    simp only [SkullEditor.get_width] at h2
    omega
  constructor
  · intro hl hpre htgt hcol
    unfold SkullEditor.move_cursor_up
    rw [if_pos hl]
    show SkullEditor.offset_to_cursor w _ _ = _
    unfold SkullEditor.offset_to_cursor SkullEditor.curLine
    simp only []
    rw [hoff hpre]
    rw [offsetToCursorAux_all_one w st.cursor_column _ htgt 0 0 (Nat.zero_le _)]
    omega
  · intro hl hpre htgt hcol
    unfold SkullEditor.move_cursor_down
    rw [if_pos (by simpa [SkullEditor.get_height] using hl)]
    show SkullEditor.offset_to_cursor w _ _ = _
    unfold SkullEditor.offset_to_cursor SkullEditor.curLine
    simp only []
    rw [hoff hpre]
    rw [offsetToCursorAux_all_one w st.cursor_column _ htgt 0 0 (Nat.zero_le _)]
    omega

/-- Witness for C5 (amended): moving up onto a single-width line long
enough for the column keeps the column. -/
theorem claim_C5_amended_witness :
    (SkullEditor.move_cursor_up asciiWidth
      { lines := [['x', 'y'], ['a', 'b']], cursor_column := 1, cursor_line := 1,
        view_pos := 0, current_view_height := 0 }).cursor_column = 1 :=
  (claim_C5_amended asciiWidth
    { lines := [['x', 'y'], ['a', 'b']], cursor_column := 1, cursor_line := 1,
      view_pos := 0, current_view_height := 0 } (by decide)).1
    (by decide) (by decide) (by decide) (by decide)

theorem confirmLoop_cons_other (e : Event) (rest : List Event) (h : isYesNo e = false) :
    confirmLoop (e :: rest) = confirmLoop rest := by
  rw [confirmLoop.eq_def]
  split
  · rename_i heq; simp at heq
  · rename_i m tail heq
    injection heq with he ht
    rw [he] at h
    simp [isYesNo] at h
  · rename_i m tail heq
    injection heq with he ht
    rw [he] at h
    simp [isYesNo] at h
  · rename_i other e2 tail hy hn heq
    injection heq with he ht
    rw [ht]

/-- C8: exit-confirmation is entered exactly when the editing loop exits
via Escape — a Ctrl+S exit returns immediately with `save = true` and no
prompt — and within the phase a `y` or `n` key terminates it with the
corresponding save flag while every other event leaves the phase
waiting. -/
theorem claim_C8 (w : Char → Nat) (th : Nat) (st : SkullEditor) (evs : List Event) :
    (∀ (st2 : SkullEditor) rest,
      editLoop w th (SkullEditor.redraw_state th st) evs = some (st2, ExitKind.ctrlS, rest) →
      runModel w th st evs =
        some { save := true, content := serializeLines st2.lines, confirmEntered := false }) ∧
    (∀ (st2 : SkullEditor) rest,
      editLoop w th (SkullEditor.redraw_state th st) evs = some (st2, ExitKind.esc, rest) →
      runModel w th st evs = (confirmLoop rest).map
        (fun b => { save := b, content := serializeLines st2.lines, confirmEntered := true })) ∧
    (∀ (m : Bool) rest, confirmLoop (Event.key (KeyCode.char 'y') m :: rest) = some true) ∧
    (∀ (m : Bool) rest, confirmLoop (Event.key (KeyCode.char 'n') m :: rest) = some false) ∧
    (∀ (e : Event) rest, isYesNo e = false → confirmLoop (e :: rest) = confirmLoop rest) := by
  refine ⟨?_, ?_, fun m rest => rfl, fun m rest => rfl, confirmLoop_cons_other⟩
  · intro st2 rest h
    simp only [runModel, h]
  · intro st2 rest h
    simp only [runModel, h]
    cases confirmLoop rest <;> rfl

/-- Witness for C8: an Escape exit enters the prompt and a `n` answer
returns without saving. -/
theorem claim_C8_witness :
    runModel asciiWidth 5 (SkullEditor.new ['a'])
        [Event.key KeyCode.esc false, Event.key (KeyCode.char 'n') false] =
      some { save := false, content := ['a'], confirmEntered := true } := by
  have h := (claim_C8 asciiWidth 5 (SkullEditor.new ['a'])
      [Event.key KeyCode.esc false, Event.key (KeyCode.char 'n') false]).2.1
    (SkullEditor.redraw_state 5 (SkullEditor.new ['a']))
    [Event.key (KeyCode.char 'n') false] rfl
  rw [h]
  rfl

/-- C9, the code evaluated at the failing input: after raw mode is
enabled, a failing `read()` makes `run` return the error without ever
reaching the success-path `disable_raw_mode` call, leaving raw mode
enabled — there is no scoped guard in the source, contradicting the
claim that raw mode is disabled on every exit path. -/
theorem claim_C9_divergence :
    runRaw asciiWidth 5 (SkullEditor.new []) [InEvent.err] =
      some { ok := false, rawMode := true } := rfl
